import Mathlib

/-!
Verification of the velas-chain EVM bridge against its specification.

The definitions below are a shallow embedding of the Rust sources:
  * `src/evm-utils/evm-rpc/src/serialize.rs` (Hex/Bytes codec),
  * `src/evm-utils/evm-bridge/src/main.rs`   (bridge RPC layer, log planner,
    transaction submission, configuration),
  * `src/core/src/evm_rpc_impl/mod.rs`       (core chain RPC layer).

Machine integers are modelled as `Nat` with explicit `% 2 ^ 64` (u64 wrapping
addition, the release-profile semantics of Rust `+`), `min _ (2 ^ 64 - 1)`
(`u64::saturating_add`) and `% 2 ^ 256` bounds checks (U256, whose `+` in the
uint crate unconditionally panics on overflow; a panic is modelled as `none`).
Strings are modelled as `List Char` (the inputs relevant to the claims are
ASCII, where Rust's byte indexing coincides with character indexing).
-/

/-! ## Hex codec (`evm-rpc/src/serialize.rs`) -/

/-- One lowercase hex digit, as produced by Rust's `{:x}` formatting. -/
def hexDigitChar (d : Nat) : Char :=
  match d with
  | 0 => '0' | 1 => '1' | 2 => '2' | 3 => '3' | 4 => '4'
  | 5 => '5' | 6 => '6' | 7 => '7' | 8 => '8' | 9 => '9'
  | 10 => 'a' | 11 => 'b' | 12 => 'c' | 13 => 'd' | 14 => 'e' | 15 => 'f'
  | _ => '*'

/-- Fuelled helper for `toHexRev`; `fuel ≥ n` always suffices. -/
def toHexRevFuel : Nat → Nat → List Char
  | 0, _ => []
  | fuel + 1, n => if n = 0 then [] else hexDigitChar (n % 16) :: toHexRevFuel fuel (n / 16)

/-- Little-endian hex digits of `n` (empty for `0`); helper for `{:x}`. -/
def toHexRev (n : Nat) : List Char := toHexRevFuel n n

/-- Models Rust `format!("{:x}", val)`: shortest lowercase hex, `"0"` for zero. -/
def formatHexChars (n : Nat) : List Char :=
  if n = 0 then ['0'] else (toHexRev n).reverse

/-- Models `format_hex_trimmed` (serialize.rs:13-16): `"0x"` followed by the
`{:x}` rendering with leading `'0'` characters trimmed. -/
def format_hex_trimmed (n : Nat) : List Char :=
  '0' :: 'x' :: (formatHexChars n).dropWhile (fun c => c == '0')

/-- Models `Serialize for Hex<T>` (serialize.rs:133-145): emit the trimmed hex,
except that the bare `"0x"` (produced by the value zero) becomes `"0x0"`. -/
def hexSerialize (n : Nat) : List Char :=
  if format_hex_trimmed n = ['0', 'x'] then ['0', 'x', '0'] else format_hex_trimmed n

/-- Numeric value of one hex digit character, upper- or lowercase, as accepted
by Rust `from_str_radix(_, 16)` / `hex::decode`. -/
def hexDigitVal (c : Char) : Option Nat :=
  if '0' ≤ c ∧ c ≤ '9' then some (c.toNat - 48)
  else if 'a' ≤ c ∧ c ≤ 'f' then some (c.toNat - 87)
  else if 'A' ≤ c ∧ c ≤ 'F' then some (c.toNat - 55)
  else none

/-- Whether a character is one of the sixteen lowercase hex digits. -/
def isLowerHexDigit (c : Char) : Bool :=
  ('0' ≤ c && c ≤ '9') || ('a' ≤ c && c ≤ 'f')

/-- Accumulating hex parser over a digit list; `none` on a non-digit. -/
def parseHexAcc (acc : Nat) : List Char → Option Nat
  | [] => some acc
  | c :: cs =>
    match hexDigitVal c with
    | some d => parseHexAcc (16 * acc + d) cs
    | none => none

/-- Models `T::from_hex(data)` for the unsigned integer widths
(serialize.rs:34-104): `from_str_radix(data, 16)` rejects the empty string,
any non-digit and any value not fitting in `width` bits.  (Sign prefixes,
which no serialized value contains, are not modelled.) -/
def from_hex (width : Nat) (s : List Char) : Option Nat :=
  match s with
  | [] => none
  | _ :: _ => (parseHexAcc 0 s).bind (fun v => if v < 2 ^ width then some v else none)

/-- Models `Hex::<T>::from_hex` (serialize.rs:18-25).  The outer `none` is a
panic: `&data[0..2]` indexes the string out of bounds when it is shorter than
two characters. -/
def hex_from_hex (width : Nat) (s : List Char) : Option (Option Nat) :=
  if s.length < 2 then none
  else if s.take 2 ≠ ['0', 'x'] then some none
  else some (from_hex width (s.drop 2))

/-- Models `HexVisitor::visit_str` (serialize.rs:160-176), the deserializer of
`Hex<T>`.  The outer `none` is a panic: `&s[2..]` indexes out of bounds when
the string is shorter than two characters.  The inner `none` is the
`invalid_value` deserialization error. -/
def hexVisitStr (width : Nat) (s : List Char) : Option (Option Nat) :=
  if s.length < 2 then none
  else
    some (match from_hex width (s.drop 2) with
      | some d => if s.take 2 = ['0', 'x'] then some d else none
      | none => none)

/-- Models `hex::decode`: hex digit pairs to bytes, failing on odd length or a
non-digit. -/
def hexDecodePairs : List Char → Option (List Nat)
  | [] => some []
  | [_] => none
  | c1 :: c2 :: rest =>
    match hexDigitVal c1, hexDigitVal c2 with
    | some d1, some d2 => (hexDecodePairs rest).map (fun bs => (16 * d1 + d2) :: bs)
    | _, _ => none

/-- Models `BytesVisitor::visit_str` (serialize.rs:180-196).  The outer `none`
is a panic: `&s[2..]` indexes out of bounds when the string is shorter than two
characters. -/
def bytesVisitStr (s : List Char) : Option (Option (List Nat)) :=
  if s.length < 2 then none
  else
    some (match hexDecodePairs (s.drop 2) with
      | some d => if s.take 2 = ['0', 'x'] then some d else none
      | none => none)

/-! ## Compatibility patches (`evm-bridge/src/main.rs`, mod `compatibility`) -/

/-- RPC transaction restricted to the fields `patch_tx` touches; `r`/`s` are
`Option<Hex<U256>>` modelled as `Option Nat`. -/
structure RPCTx where
  r : Option Nat
  s : Option Nat
deriving DecidableEq, Repr

/-- RPC block restricted to the fields `patch_block` touches.  `transactions`
is `Either<Vec<Hex<H256>>, Vec<RPCTransaction>>`: `Sum.inl` carries hashes,
`Sum.inr` full transactions.  Hashes and roots (`H256`) are modelled as `Nat`;
`H256::zero()` is `0`. -/
structure RPCBlock where
  transactionsRoot : Nat
  receiptsRoot : Nat
  transactions : Sum (List Nat) (List RPCTx)
deriving DecidableEq, Repr

/-- Modelled from the spec: `evm_state::empty_trie_hash()` (the evm-state crate
is not among the provided sources) is "the keccak256 of the RLP of the empty
string", the canonical constant below. -/
def empty_trie_hash : Nat :=
  0x56e81f171bcc55a6ff8345e692c0f86e5b48e01b996cadc001622fb5e363b421

/-- Models `compatibility::patch_tx` (main.rs:134-142): an absent or zero `r`
(resp. `s`) is replaced by `0x1`. -/
def patch_tx (tx : RPCTx) : RPCTx :=
  let tx1 := if tx.r.getD 0 = 0 then { tx with r := some 1 } else tx
  if tx1.s.getD 0 = 0 then { tx1 with s := some 1 } else tx1

/-- Emptiness test of the block's transaction list (main.rs:145-148). -/
def blockTxsEmpty (b : RPCBlock) : Bool :=
  match b.transactions with
  | .inl txs => txs.isEmpty
  | .inr txs => txs.isEmpty

/-- Models `compatibility::patch_block` (main.rs:144-167). -/
def patch_block (b : RPCBlock) : RPCBlock :=
  if blockTxsEmpty b = true ∧ b.transactionsRoot = 0 then
    { b with transactionsRoot := empty_trie_hash, receiptsRoot := empty_trie_hash }
  else
    { b with transactions :=
        match b.transactions with
        | .inl txs => .inl txs
        | .inr txs => .inr (txs.map patch_tx) }

/-! ## Transaction submission (`EvmBridge::send_tx`, main.rs:249-281) -/

/-- The fields of `evm::Transaction` that `send_tx` inspects.  `hash` stands
for `tx.tx_id_hash()`, the EVM hash of the signed transaction. -/
structure EvmTx where
  gasPrice : Nat
  hash : Nat
deriving DecidableEq, Repr

/-- Errors surfaced by `send_tx`. -/
inductive SendErr
  | gasPriceTooLow (need : Nat)
  | evmStateError
  | runtimeError
deriving DecidableEq, Repr

/-- Modelled from the spec: the pool error `txpool::Error::AlreadyImported`
(the pool module is not among the provided sources). -/
inductive ImportErr
  | alreadyImported (hash : Nat)
deriving DecidableEq, Repr

/-- The transaction pool, abstracted to the set of EVM hashes it knows.  The
pool module itself is not among the provided sources. -/
structure Pool where
  hashes : List Nat
deriving DecidableEq, Repr

/-- Modelled from the spec: `EthPool::import` "fails with
`AlreadyImported(hash)` if the hash is already known, returning the
pre-existing hash"; otherwise it inserts the transaction. -/
def Pool.importTx (p : Pool) (h : Nat) : Except ImportErr Pool :=
  if h ∈ p.hashes then .error (.alreadyImported h) else .ok ⟨h :: p.hashes⟩

/-- Models `EvmBridge::send_tx` (main.rs:249-281).  `recover` stands for the
sender recovery performed inside `PooledTransaction::new` (an `Err` there is
surfaced as `EvmStateError`); `simulated` is the value delivered on the
one-shot result channel when `simulate` is set.  Returns the RPC result
together with the pool state after the call. -/
def send_tx (minGasPrice : Nat) (simulate : Bool) (recover : EvmTx → Option Nat)
    (simulated : Except SendErr Nat) (pool : Pool) (tx : EvmTx) :
    Except SendErr Nat × Pool :=
  if tx.gasPrice < minGasPrice then (.error (.gasPriceTooLow minGasPrice), pool)
  else
    match recover tx with
    | none => (.error .evmStateError, pool)
    | some _ =>
      match pool.importTx tx.hash with
      | .error (.alreadyImported h) => (.ok h, pool)
      | .ok pool1 => (if simulate then simulated else .ok tx.hash, pool1)

/-! ## Speculative call result mapping (`core/src/evm_rpc_impl/mod.rs`) -/

/-- `evm::ExitReason`; the payloads are opaque to the mapping and modelled as
`Nat` codes. -/
inductive ExitReason
  | succeed (kind : Nat)
  | error (err : Nat)
  | revert (err : Nat)
  | fatal (err : Nat)
deriving DecidableEq, Repr

/-- The call-path error taxonomy (`CallError` / `CallRevert` / `CallFatal`). -/
inductive CallFailure
  | callError (data : List Nat) (err : Nat)
  | callRevert (data : List Nat) (err : Nat)
  | callFatal (err : Nat)
deriving DecidableEq, Repr

/-- Models the exit-reason match inside `fn call` (mod.rs:632-643). -/
def call_split_reason (reason : ExitReason) (data : List Nat) :
    Except CallFailure (Nat × List Nat) :=
  match reason with
  | .error e => .error (.callError data e)
  | .revert e => .error (.callRevert data e)
  | .fatal e => .error (.callFatal e)
  | .succeed s => .ok (s, data)

/-- Models the user-facing `BasicErpcImpl::call` (mod.rs:392-414): on success
it returns `Bytes(result.1)`, the output bytes. -/
def rpc_call (reason : ExitReason) (data : List Nat) : Except CallFailure (List Nat) :=
  (call_split_reason reason data).map (fun r => r.2)

/-! ## Core chain `blockNumber` (`core/src/evm_rpc_impl/mod.rs`) -/

/-- Block identifiers (`BlockId`): a number, the relative tags, or a hash. -/
inductive BlockId
  | num (n : Nat)
  | latest
  | pending
  | earliest
  | blockHash (h : Nat)
deriving DecidableEq, Repr

/-- The parts of `JsonRpcRequestProcessor` that `block_parse_confirmed_num`
reads: `get_last_available_evm_block`, `get_frist_available_evm_block`, and
the bank's `evm_state.block_number()`. -/
structure NodeState where
  lastAvailableEvmBlock : Option Nat
  firstAvailableEvmBlock : Nat
  bankBlockNumber : Nat

/-- Models `block_parse_confirmed_num` (mod.rs:57-75).  `let block = block?`
short-circuits a `None` input to `None`; `saturating_sub(1)` is `Nat`
subtraction. -/
def block_parse_confirmed_num (block : Option BlockId) (meta : NodeState) : Option Nat :=
  match block with
  | none => none
  | some b =>
    match b with
    | .blockHash _ => none
    | .earliest => some meta.firstAvailableEvmBlock
    | .pending => some (meta.lastAvailableEvmBlock.getD (meta.bankBlockNumber - 1))
    | .latest => some (meta.lastAvailableEvmBlock.getD (meta.bankBlockNumber - 1))
    | .num n => some n

/-- Models `BasicErpcImpl::block_number` (mod.rs:203-206): it passes `None`
and falls back to `0`. -/
def block_number_rpc (meta : NodeState) : Nat :=
  (block_parse_confirmed_num none meta).getD 0

/-! ## Log query planner (`ChainErpcProxy::logs`, main.rs:803-868) -/

/-- One past the largest u64 value. -/
def U64LIMIT : Nat := 2 ^ 64

/-- u64 `saturating_add`. -/
def satAdd64 (a b : Nat) : Nat := min (a + b) (U64LIMIT - 1)

/-- u64 wrapping `+` (the release-profile semantics of Rust addition). -/
def wrapAdd64 (a b : Nat) : Nat := (a + b) % U64LIMIT

/-- The bridge error relevant to the log planner. -/
inductive LogsErr
  | invalidBlocksRange (starting ending : Nat) (batchSize : Option Nat)
deriving DecidableEq, Repr

/-- Models the chunking loop of `logs` (main.rs:835-858), run for `fuel`
iterations.  `MAX_NUM_BLOCKS_IN_BATCH = 2000` (main.rs:69).  Each iteration
with `starting ≤ ending` issues one upstream `EthGetLogs` sub-query for the
closed range `[starting, min (starting.saturating_add 2000) ending]` and then
advances `starting` by `saturating_add 2001`.  Returns the sub-ranges issued
so far and whether the loop has terminated within `fuel` iterations. -/
def logsChunksFuel : Nat → Nat → Nat → List (Nat × Nat) × Bool
  | 0, starting, ending => ([], decide (ending < starting))
  | fuel + 1, starting, ending =>
    if starting ≤ ending then
      ((starting, min (satAdd64 starting 2000) ending)
          :: (logsChunksFuel fuel (satAdd64 starting 2001) ending).1,
        (logsChunksFuel fuel (satAdd64 starting 2001) ending).2)
    else ([], true)

/-- The chunk list the loop computes, written as a terminating `Nat`
recursion (no saturation); agrees with `logsChunksFuel` whenever
`ending ≤ 2 ^ 64 - 2`, see `logsChunksFuel_eq_chunkRanges`. -/
def chunkRanges (starting ending : Nat) : List (Nat × Nat) :=
  if h : starting ≤ ending then
    (starting, min (starting + 2000) ending) :: chunkRanges (starting + 2001) ending
  else []
termination_by ending + 1 - starting
decreasing_by omega

/-- Models `ChainErpcProxy::logs` (main.rs:803-868) after both block ids have
been resolved to the numbers `f` and `t`.  `oracle r.1 r.2` stands for the
upstream `EthGetLogs` response for the sub-range `r`; `maxLogs` is
`meta.max_logs_blocks`.  The result pairs the list of upstream sub-queries
issued with the RPC outcome; the outcome is `none` while the chunking loop has
not terminated within `fuel` iterations.  The guard on main.rs:827 computes
`starting_block + meta.max_logs_blocks` in u64, hence `wrapAdd64`. -/
def logsRun {α : Type} (oracle : Nat → Nat → List α) (maxLogs f t fuel : Nat) :
    List (Nat × Nat) × Option (Except LogsErr (List α)) :=
  if t < f then ([], some (.error (.invalidBlocksRange f t none)))
  else if wrapAdd64 f maxLogs < t then
    ([], some (.error (.invalidBlocksRange f t (some maxLogs))))
  else
    ((logsChunksFuel fuel f t).1,
      if (logsChunksFuel fuel f t).2 then
        some (.ok (((logsChunksFuel fuel f t).1.map (fun p => oracle p.1 p.2)).flatten))
      else none)

/-! ## Configuration (`Args::min_gas_price_or_default`, main.rs:1041-1073) -/

/-- One gwei. -/
def GWEI : Nat := 1000000000

/-- One past the largest U256 value. -/
def U256LIMIT : Nat := 2 ^ 256

/-- The default minimum gas price
`21000 * LAMPORTS_TO_GWEI_PRICE / DEFAULT_TARGET_LAMPORTS_PER_SIGNATURE`
(main.rs:1044-1049), with the two constants (defined outside the provided
sources) kept as parameters `L` and `D`.  The multiplication is u64. -/
def default_min_gas_price (L D : Nat) : Nat := 21000 * L % U64LIMIT / D

/-- Models `Args::min_gas_price_or_default` (main.rs:1042-1072).  `parsed` is
the result of `self.min_gas_price.as_ref().and_then(|s| U256::from_dec_str(s).ok())`,
so any present value is below `2 ^ 256`.  The rounding step
`gas_price += gwei - 1; gas_price -= gas_price % gwei` uses U256 arithmetic
whose `+` panics on overflow (uint crate); the panic is modelled as `none`. -/
def min_gas_price_or_default (L D : Nat) (parsed : Option Nat) : Option Nat :=
  if U256LIMIT ≤ parsed.getD (default_min_gas_price L D) + (GWEI - 1) then none
  else
    some (parsed.getD (default_min_gas_price L D) + (GWEI - 1) -
      (parsed.getD (default_min_gas_price L D) + (GWEI - 1)) % GWEI)

/-! ## Theorems -/

/-- C9: the core chain RPC `blockNumber` operation always returns `Hex(0)`:
`block_parse_confirmed_num` maps the `None` block id it is given to `None`,
so the handler falls back to `0` in every node state and never reports the
latest confirmed EVM block number. -/
theorem block_number_always_zero (meta : NodeState) :
    block_number_rpc meta = 0 ∧ block_parse_confirmed_num none meta = none :=
  ⟨rfl, rfl⟩

/-- C7: on the user-facing `call` path the speculative execution exit reason
is mapped as `Succeed(kind) ↦ Ok(output bytes)`, `Revert ↦ CallRevert {data,
error}`, `Error ↦ CallError {data, error}` and `Fatal ↦ CallFatal {error}`. -/
theorem call_exit_reason_mapping (k e : Nat) (data : List Nat) :
    rpc_call (.succeed k) data = .ok data ∧
    rpc_call (.revert e) data = .error (.callRevert data e) ∧
    rpc_call (.error e) data = .error (.callError data e) ∧
    rpc_call (.fatal e) data = .error (.callFatal e) :=
  ⟨rfl, rfl, rfl, rfl⟩

/-- C4: `patch_block` overwrites both roots with the empty-trie root exactly
when the block has zero transactions and a zero `transactionsRoot` (after
which `receiptsRoot = transactionsRoot`), and leaves both roots unchanged
otherwise. -/
theorem patch_block_empty_roots (b : RPCBlock) :
    (blockTxsEmpty b = true → b.transactionsRoot = 0 →
      (patch_block b).transactionsRoot = empty_trie_hash ∧
      (patch_block b).receiptsRoot = empty_trie_hash ∧
      (patch_block b).receiptsRoot = (patch_block b).transactionsRoot) ∧
    (¬ (blockTxsEmpty b = true ∧ b.transactionsRoot = 0) →
      (patch_block b).transactionsRoot = b.transactionsRoot ∧
      (patch_block b).receiptsRoot = b.receiptsRoot) := by
  constructor
  · intro h1 h2
    rw [patch_block, if_pos ⟨h1, h2⟩]
    exact ⟨rfl, rfl, rfl⟩
  · intro h
    rw [patch_block, if_neg h]
    exact ⟨rfl, rfl⟩

/-- Witness for C4 at concrete blocks: an empty block with zero roots is
patched to the empty-trie root, a block with a nonzero `transactionsRoot` is
left unchanged. -/
theorem patch_block_empty_roots_witness :
    ((patch_block ⟨0, 5, .inl []⟩).transactionsRoot = empty_trie_hash ∧
     (patch_block ⟨0, 5, .inl []⟩).receiptsRoot = empty_trie_hash ∧
     (patch_block ⟨0, 5, .inl []⟩).receiptsRoot =
       (patch_block ⟨0, 5, .inl []⟩).transactionsRoot) ∧
    ((patch_block ⟨7, 5, .inl []⟩).transactionsRoot = 7 ∧
     (patch_block ⟨7, 5, .inl []⟩).receiptsRoot = 5) :=
  ⟨(patch_block_empty_roots ⟨0, 5, .inl []⟩).1 rfl rfl,
   (patch_block_empty_roots ⟨7, 5, .inl []⟩).2 (by decide)⟩

/-- C5: a transaction whose gas price is strictly below the configured
minimum is rejected by `send_tx` with `GasPriceTooLow { need: min_gas_price }`
before touching the pool; the pool state is unchanged. -/
theorem send_tx_gas_price_too_low (minGasPrice : Nat) (simulate : Bool)
    (recover : EvmTx → Option Nat) (simulated : Except SendErr Nat)
    (pool : Pool) (tx : EvmTx) (h : tx.gasPrice < minGasPrice) :
    send_tx minGasPrice simulate recover simulated pool tx =
      (.error (.gasPriceTooLow minGasPrice), pool) := by
  simp [send_tx, h]

/-- Witness for C5: a gas price of 5 against a minimum of 10 is rejected and
the pool is untouched. -/
theorem send_tx_gas_price_too_low_witness :
    (5 : Nat) < 10 ∧
    send_tx 10 true (fun _ => some 0) (.ok 0) ⟨[]⟩ ⟨5, 42⟩ =
      (.error (.gasPriceTooLow 10), (⟨[]⟩ : Pool)) :=
  ⟨by decide, send_tx_gas_price_too_low 10 true (fun _ => some 0) (.ok 0) ⟨[]⟩ ⟨5, 42⟩ (by decide)⟩

/-- C6: resubmitting a transaction whose EVM hash the pool already knows is
not an error: the pool's import fails with `AlreadyImported(hash)`, `send_tx`
returns that pre-existing hash as a success, and the pool is unchanged.
(The hypotheses hold for any resubmission of a pooled transaction: every
pooled hash was admitted through the same gas check against the fixed
`min_gas_price`, and sender recovery is deterministic, so it succeeds again.) -/
theorem send_tx_already_imported (minGasPrice : Nat) (simulate : Bool)
    (recover : EvmTx → Option Nat) (simulated : Except SendErr Nat)
    (pool : Pool) (tx : EvmTx)
    (hmem : tx.hash ∈ pool.hashes) (hgas : minGasPrice ≤ tx.gasPrice)
    (hrec : (recover tx).isSome = true) :
    pool.importTx tx.hash = .error (.alreadyImported tx.hash) ∧
    send_tx minGasPrice simulate recover simulated pool tx = (.ok tx.hash, pool) := by
  have himp : pool.importTx tx.hash = .error (.alreadyImported tx.hash) := by
    simp [Pool.importTx, hmem]
  refine ⟨himp, ?_⟩
  obtain ⟨a, ha⟩ := Option.isSome_iff_exists.mp hrec
  simp [send_tx, Nat.not_lt.mpr hgas, ha, himp]

/-- Witness for C6: resubmitting hash 42 to a pool that contains it returns
`Ok 42` and the pool is unchanged. -/
theorem send_tx_already_imported_witness :
    (42 : Nat) ∈ ([42, 7] : List Nat) ∧ (10 : Nat) ≤ 11 ∧
    (Pool.importTx ⟨[42, 7]⟩ 42 = .error (.alreadyImported 42) ∧
     send_tx 10 true (fun _ => some 3) (.ok 0) ⟨[42, 7]⟩ ⟨11, 42⟩ =
       (.ok 42, (⟨[42, 7]⟩ : Pool))) :=
  ⟨by decide, by decide,
   send_tx_already_imported 10 true (fun _ => some 3) (.ok 0) ⟨[42, 7]⟩ ⟨11, 42⟩
     (by decide) (by decide) rfl⟩

/-- C10: deserializing a `Hex<T>` or `Bytes` value, or calling
`Hex::from_hex`, on a string shorter than two characters panics on an
out-of-bounds byte slice (`&s[2..]` / `&data[0..2]`) instead of returning a
deserialization error (`none` models the panic), so the public hex-decoding
interface is not a total function of its string input. -/
theorem hex_decode_short_input_panics :
    hex_from_hex 64 [] = none ∧ hexVisitStr 64 [] = none ∧ bytesVisitStr [] = none ∧
    hex_from_hex 256 ['a'] = none ∧ hexVisitStr 256 ['a'] = none ∧
    bytesVisitStr ['a'] = none := by
  decide

/-- The fuel argument of `toHexRevFuel` is irrelevant once it is at least `n`. -/
theorem toHexRevFuel_congr : ∀ f1 f2 n, n ≤ f1 → n ≤ f2 → toHexRevFuel f1 n = toHexRevFuel f2 n := by
  intro f1
  induction f1 with
  | zero =>
    intro f2 n h1 _
    have hn : n = 0 := Nat.le_zero.mp h1
    subst hn
    cases f2 with
    | zero => rfl
    | succ m => simp [toHexRevFuel]
  | succ f ih =>
    intro f2 n h1 h2
    cases f2 with
    | zero =>
      have hn : n = 0 := Nat.le_zero.mp h2
      subst hn
      simp [toHexRevFuel]
    | succ g =>
      by_cases hn : n = 0
      · subst hn; simp [toHexRevFuel]
      · simp only [toHexRevFuel, if_neg hn]
        have hdiv : n / 16 < n := Nat.div_lt_self (Nat.pos_of_ne_zero hn) (by norm_num)
        exact congrArg _ (ih g (n / 16) (by omega) (by omega))

theorem toHexRev_zero : toHexRev 0 = [] := rfl

/-- Unfolding equation of `toHexRev` for a nonzero argument. -/
theorem toHexRev_pos (n : Nat) (h : n ≠ 0) :
    toHexRev n = hexDigitChar (n % 16) :: toHexRev (n / 16) := by
  cases n with
  | zero => exact absurd rfl h
  | succ m =>
    show toHexRevFuel (m + 1) (m + 1) = _
    rw [toHexRevFuel, if_neg h]
    have hdiv : (m + 1) / 16 < m + 1 := Nat.div_lt_self (Nat.succ_pos m) (by norm_num)
    exact congrArg _ (toHexRevFuel_congr m ((m + 1) / 16) ((m + 1) / 16) (by omega) le_rfl)

theorem toHexRev_ne_nil (n : Nat) (h : n ≠ 0) : toHexRev n ≠ [] := by
  rw [toHexRev_pos n h]
  exact List.cons_ne_nil _ _

/-- The hex digit characters parse back to their values. -/
theorem hexDigitVal_hexDigitChar (d : Nat) (h : d < 16) :
    hexDigitVal (hexDigitChar d) = some d := by
  interval_cases d <;> decide

/-- The hex digit characters are lowercase hex digits. -/
theorem hexDigitChar_isLower (d : Nat) (h : d < 16) :
    isLowerHexDigit (hexDigitChar d) = true := by
  interval_cases d <;> decide

theorem hexDigitChar_ne_zero (d : Nat) (h1 : 0 < d) (h2 : d < 16) : hexDigitChar d ≠ '0' := by
  interval_cases d <;> decide

/-- `parseHexAcc` splits over list append. -/
theorem parseHexAcc_append (xs ys : List Char) :
    ∀ acc, parseHexAcc acc (xs ++ ys) =
      match parseHexAcc acc xs with
      | some a => parseHexAcc a ys
      | none => none := by
  induction xs with
  | nil => intro acc; rfl
  | cons c cs ih =>
    intro acc
    simp only [List.cons_append, parseHexAcc]
    cases hexDigitVal c with
    | some d => exact ih (16 * acc + d)
    | none => rfl

/-- Parsing the big-endian hex rendering of `n` recovers `n` (with the
accumulator shifted by the digit count). -/
theorem parseHexAcc_toHexRev (n : Nat) :
    ∀ acc, parseHexAcc acc (toHexRev n).reverse =
      some (acc * 16 ^ (toHexRev n).length + n) := by
  induction n using Nat.strong_induction_on with
  | _ n ih =>
    intro acc
    by_cases h : n = 0
    · subst h; simp [toHexRev_zero, parseHexAcc]
    · rw [toHexRev_pos n h]
      have hdiv : n / 16 < n := Nat.div_lt_self (Nat.pos_of_ne_zero h) (by norm_num)
      simp only [List.reverse_cons, List.length_cons]
      rw [parseHexAcc_append]
      rw [ih (n / 16) hdiv acc]
      simp only [parseHexAcc, hexDigitVal_hexDigitChar (n % 16) (Nat.mod_lt n (by norm_num))]
      congr 1
      have hmod := Nat.div_add_mod n 16
      calc 16 * (acc * 16 ^ (toHexRev (n / 16)).length + n / 16) + n % 16
          = acc * (16 ^ (toHexRev (n / 16)).length * 16) + (16 * (n / 16) + n % 16) := by ring
        _ = acc * 16 ^ ((toHexRev (n / 16)).length + 1) + n := by rw [hmod, pow_succ]

/-- The leading (most significant) digit of a nonzero value is not `'0'`. -/
theorem toHexRev_reverse_head_ne (n : Nat) :
    n ≠ 0 → ∀ c l, (toHexRev n).reverse = c :: l → c ≠ '0' := by
  induction n using Nat.strong_induction_on with
  | _ n ih =>
    intro h c l hcl
    rw [toHexRev_pos n h, List.reverse_cons] at hcl
    by_cases h2 : n / 16 = 0
    · rw [h2, toHexRev_zero] at hcl
      simp only [List.reverse_nil, List.nil_append] at hcl
      have hlt : n < 16 := by
        rcases Nat.lt_or_ge n 16 with hl | hg
        · exact hl
        · exact absurd h2 (by have := Nat.one_le_div_iff (by norm_num : 0 < 16) |>.mpr hg; omega)
      have hmod : n % 16 = n := Nat.mod_eq_of_lt hlt
      rw [hmod] at hcl
      obtain ⟨hc, -⟩ := List.cons.inj hcl
      rw [← hc]
      exact hexDigitChar_ne_zero n (Nat.pos_of_ne_zero h) hlt
    · have hne : (toHexRev (n / 16)).reverse ≠ [] := by
        intro hnil
        exact toHexRev_ne_nil (n / 16) h2 (List.reverse_eq_nil_iff.mp hnil)
      cases hrev : (toHexRev (n / 16)).reverse with
      | nil => exact absurd hrev hne
      | cons a as =>
        rw [hrev, List.cons_append] at hcl
        have hdiv : n / 16 < n := Nat.div_lt_self (Nat.pos_of_ne_zero h) (by norm_num)
        obtain ⟨hc, -⟩ := List.cons.inj hcl
        rw [← hc]
        exact ih (n / 16) hdiv h2 a as hrev

/-- Every character of the hex rendering is a lowercase hex digit. -/
theorem toHexRev_mem (n : Nat) :
    ∀ c ∈ toHexRev n, isLowerHexDigit c = true := by
  induction n using Nat.strong_induction_on with
  | _ n ih =>
    intro c hc
    by_cases h : n = 0
    · subst h; rw [toHexRev_zero] at hc; cases hc
    · rw [toHexRev_pos n h] at hc
      rcases List.mem_cons.mp hc with hrfl | hmem
      · subst hrfl; exact hexDigitChar_isLower (n % 16) (Nat.mod_lt n (by norm_num))
      · have hdiv : n / 16 < n := Nat.div_lt_self (Nat.pos_of_ne_zero h) (by norm_num)
        exact ih (n / 16) hdiv c hmem

/-- `trim_start_matches('0')` does nothing when the first character is not `'0'`. -/
theorem dropWhile_zero_of_head_ne (c : Char) (l : List Char) (h : c ≠ '0') :
    (c :: l).dropWhile (fun x => x == '0') = c :: l := by
  rw [List.dropWhile_cons]
  simp [h]

/-- For a nonzero value the serializer emits `"0x"` followed by the untrimmed
big-endian hex digits. -/
theorem hexSerialize_pos (n : Nat) (h : n ≠ 0) :
    hexSerialize n = '0' :: 'x' :: (toHexRev n).reverse := by
  obtain ⟨c, l, hcl⟩ : ∃ c l, (toHexRev n).reverse = c :: l := by
    cases hrev : (toHexRev n).reverse with
    | nil => exact absurd (List.reverse_eq_nil_iff.mp hrev) (toHexRev_ne_nil n h)
    | cons c l => exact ⟨c, l, rfl⟩
  have hc : c ≠ '0' := toHexRev_reverse_head_ne n h c l hcl
  have hfmt : format_hex_trimmed n = '0' :: 'x' :: c :: l := by
    unfold format_hex_trimmed formatHexChars
    rw [if_neg h, hcl, dropWhile_zero_of_head_ne c l hc]
  rw [hexSerialize, hfmt, if_neg (by simp), hcl]

/-- C3: for every unsigned value `n` of a supported width, deserializing the
serialization of `Hex(n)` yields `n`; `Hex(0)` serializes exactly to `"0x0"`;
and for `n > 0` the serialization is `"0x"` followed by the shortest lowercase
hex representation of `n` (its digits parse back to `n` and carry no leading
zero). -/
theorem hex_codec_roundtrip (width n : Nat)
    (hw : width ∈ ([8, 16, 32, 64, 128, 256, 512] : List Nat)) (hn : n < 2 ^ width) :
    hexVisitStr width (hexSerialize n) = some (some n) ∧
    hexSerialize 0 = ['0', 'x', '0'] ∧
    (0 < n → ∃ ds, hexSerialize n = '0' :: 'x' :: ds ∧ ds ≠ [] ∧
      ds.head? ≠ some '0' ∧
      (∀ c ∈ ds, isLowerHexDigit c = true) ∧
      parseHexAcc 0 ds = some n) := by
  refine ⟨?_, by decide, ?_⟩
  · by_cases h : n = 0
    · subst h
      have h0 : hexSerialize 0 = ['0', 'x', '0'] := by decide
      rw [h0]
      have hfh : from_hex width ['0'] = some 0 := by
        have hp : parseHexAcc 0 ['0'] = some 0 := by decide
        simp only [from_hex, hp, Option.some_bind]
        rw [if_pos (pow_pos (by norm_num : (0 : ℕ) < 2) width)]
      unfold hexVisitStr
      rw [if_neg (by decide)]
      have hd : (['0', 'x', '0'] : List Char).drop 2 = ['0'] := by decide
      have ht : (['0', 'x', '0'] : List Char).take 2 = ['0', 'x'] := by decide
      rw [hd, hfh, ht]
      rfl
    · obtain ⟨c, l, hcl⟩ : ∃ c l, (toHexRev n).reverse = c :: l := by
        cases hrev : (toHexRev n).reverse with
        | nil => exact absurd (List.reverse_eq_nil_iff.mp hrev) (toHexRev_ne_nil n h)
        | cons c l => exact ⟨c, l, rfl⟩
      rw [hexSerialize_pos n h]
      have hfh : from_hex width (toHexRev n).reverse = some n := by
        rw [hcl]
        have hp : parseHexAcc 0 (c :: l) = some n := by
          rw [← hcl, parseHexAcc_toHexRev n 0]
          simp
        simp only [from_hex, hp, Option.some_bind]
        rw [if_pos hn]
      unfold hexVisitStr
      rw [if_neg (by simp)]
      have hd : ('0' :: 'x' :: (toHexRev n).reverse).drop 2 = (toHexRev n).reverse := rfl
      have ht : ('0' :: 'x' :: (toHexRev n).reverse).take 2 = ['0', 'x'] := rfl
      rw [hd, hfh, ht]
      rfl
  · intro hpos
    have h : n ≠ 0 := Nat.pos_iff_ne_zero.mp hpos
    refine ⟨(toHexRev n).reverse, hexSerialize_pos n h, ?_, ?_, ?_, ?_⟩
    · intro hnil
      exact toHexRev_ne_nil n h (List.reverse_eq_nil_iff.mp hnil)
    · cases hrev : (toHexRev n).reverse with
      | nil => exact absurd (List.reverse_eq_nil_iff.mp hrev) (toHexRev_ne_nil n h)
      | cons c l =>
        have hc : c ≠ '0' := toHexRev_reverse_head_ne n h c l hrev
        simp [hc]
    · intro c hc
      exact toHexRev_mem n c (List.mem_reverse.mp hc)
    · rw [parseHexAcc_toHexRev n 0]
      simp

/-- Witness for C3 at width 64 and the spec's own test value
`0x7bb9369dcbaec019`. -/
theorem hex_codec_roundtrip_witness :
    (64 : Nat) ∈ ([8, 16, 32, 64, 128, 256, 512] : List Nat) ∧
    (0x7bb9369dcbaec019 : Nat) < 2 ^ 64 ∧
    (hexVisitStr 64 (hexSerialize 0x7bb9369dcbaec019) = some (some 0x7bb9369dcbaec019) ∧
     hexSerialize 0 = ['0', 'x', '0'] ∧
     (0 < (0x7bb9369dcbaec019 : Nat) → ∃ ds,
       hexSerialize 0x7bb9369dcbaec019 = '0' :: 'x' :: ds ∧ ds ≠ [] ∧
       ds.head? ≠ some '0' ∧
       (∀ c ∈ ds, isLowerHexDigit c = true) ∧
       parseHexAcc 0 ds = some 0x7bb9369dcbaec019)) :=
  ⟨by decide, by decide, hex_codec_roundtrip 64 0x7bb9369dcbaec019 (by decide) (by decide)⟩

/-- Once the loop guard is false the fuelled loop is finished, for any fuel. -/
theorem logsChunksFuel_done (fuel s e : Nat) (h : e < s) :
    logsChunksFuel fuel s e = ([], true) := by
  cases fuel with
  | zero =>
    simp only [logsChunksFuel]
    rw [decide_eq_true h]
  | succ f => simp [logsChunksFuel, Nat.not_le.mpr h]

/-- Unfolding equation of `chunkRanges` when the guard holds. -/
theorem chunkRanges_pos (s e : Nat) (h : s ≤ e) :
    chunkRanges s e = (s, min (s + 2000) e) :: chunkRanges (s + 2001) e := by
  rw [chunkRanges]
  simp [h]

/-- Unfolding equation of `chunkRanges` when the guard fails. -/
theorem chunkRanges_neg (s e : Nat) (h : e < s) : chunkRanges s e = [] := by
  rw [chunkRanges]
  simp [Nat.not_le.mpr h]

/-- Below the u64 boundary (`e ≤ 2 ^ 64 - 2`) the fuelled loop terminates and
computes exactly `chunkRanges`, given enough fuel. -/
theorem logsChunksFuel_eq_chunkRanges (e : Nat) (he : e + 2 ≤ U64LIMIT) :
    ∀ fuel s, (chunkRanges s e).length ≤ fuel →
      logsChunksFuel fuel s e = (chunkRanges s e, true) := by
  have hU : U64LIMIT = 18446744073709551616 := by norm_num [U64LIMIT]
  intro fuel
  induction fuel with
  | zero =>
    intro s hlen
    by_cases hse : s ≤ e
    · rw [chunkRanges_pos s e hse] at hlen
      simp at hlen
    · have h := Nat.not_le.mp hse
      rw [chunkRanges_neg s e h]
      exact logsChunksFuel_done 0 s e h
  | succ fl ih =>
    intro s hlen
    by_cases hse : s ≤ e
    · rw [chunkRanges_pos s e hse] at hlen
      simp only [List.length_cons] at hlen
      rw [chunkRanges_pos s e hse]
      simp only [logsChunksFuel, if_pos hse]
      have hmin : min (satAdd64 s 2000) e = min (s + 2000) e := by
        simp only [satAdd64, hU] at *
        omega
      by_cases hclip : s + 2001 ≤ U64LIMIT - 1
      · have hsat : satAdd64 s 2001 = s + 2001 := by
          simp only [satAdd64, hU] at *
          omega
        rw [hmin, hsat, ih (s + 2001) (by omega)]
      · have hsat : satAdd64 s 2001 = U64LIMIT - 1 := by
          simp only [satAdd64, hU] at *
          omega
        have hgt : e < U64LIMIT - 1 := by omega
        rw [hmin, hsat, logsChunksFuel_done fl _ e hgt,
          chunkRanges_neg (s + 2001) e (by omega)]
    · have h := Nat.not_le.mp hse
      rw [chunkRanges_neg s e h]
      exact logsChunksFuel_done (fl + 1) s e h

/-- Auxiliary closed form of `chunkRanges`, by strong induction on `e - s`. -/
theorem chunkRanges_closed_form_aux :
    ∀ d s e, e - s = d → s ≤ e →
      chunkRanges s e = (List.range ((e - s) / 2001 + 1)).map
        (fun i => (s + 2001 * i, min (s + 2001 * i + 2000) e)) := by
  intro d
  induction d using Nat.strong_induction_on with
  | _ d ih =>
    intro s e hd hse
    by_cases h2 : s + 2001 ≤ e
    · have hrec := ih (e - (s + 2001)) (by omega) (s + 2001) e rfl (by omega)
      rw [chunkRanges_pos s e hse, hrec]
      have hdiv : (e - s) / 2001 = (e - (s + 2001)) / 2001 + 1 := by
        have hsplit : e - s = (e - (s + 2001)) + 2001 := by omega
        rw [hsplit, Nat.add_div_right _ (by norm_num)]
      rw [hdiv]
      conv_rhs => rw [List.range_succ_eq_map, List.map_cons, List.map_map]
      congr 1
      refine List.map_congr_left ?_
      intro a _
      simp only [Function.comp_apply, Nat.succ_eq_add_one, Prod.mk.injEq]
      refine ⟨by ring, ?_⟩
      congr 1
      ring
    · rw [chunkRanges_pos s e hse, chunkRanges_neg (s + 2001) e (by omega)]
      have hdiv : (e - s) / 2001 = 0 := Nat.div_eq_of_lt (by omega)
      rw [hdiv]
      simp [List.range_succ]

/-- Closed form of `chunkRanges`: the `i`-th sub-range starts at `s + 2001 i`. -/
theorem chunkRanges_closedForm (s e : Nat) (h : s ≤ e) :
    chunkRanges s e = (List.range ((e - s) / 2001 + 1)).map
      (fun i => (s + 2001 * i, min (s + 2001 * i + 2000) e)) :=
  chunkRanges_closed_form_aux (e - s) s e rfl h

/-- The number of sub-ranges is `ceil((e - s + 1) / 2001)`. -/
theorem chunkRanges_length (s e : Nat) (h : s ≤ e) :
    (chunkRanges s e).length = ((e - s + 1) + 2000) / 2001 := by
  rw [chunkRanges_closedForm s e h, List.length_map, List.length_range]
  have hsplit : e - s + 1 + 2000 = (e - s) + 2001 := by ring
  rw [hsplit, Nat.add_div_right _ (by norm_num)]

/-- The sub-ranges cover exactly the closed interval `[s, e]`. -/
theorem chunkRanges_cover (s e x : Nat) (h : s ≤ e) :
    (s ≤ x ∧ x ≤ e) ↔ ∃ p ∈ chunkRanges s e, p.1 ≤ x ∧ x ≤ p.2 := by
  constructor
  · rintro ⟨hsx, hxe⟩
    have hmod := Nat.div_add_mod (x - s) 2001
    have hr : (x - s) % 2001 < 2001 := Nat.mod_lt _ (by norm_num)
    refine ⟨(s + 2001 * ((x - s) / 2001), min (s + 2001 * ((x - s) / 2001) + 2000) e),
      ?_, ?_, ?_⟩
    · rw [chunkRanges_closedForm s e h]
      refine List.mem_map.mpr ⟨(x - s) / 2001, List.mem_range.mpr ?_, rfl⟩
      have : (x - s) / 2001 ≤ (e - s) / 2001 := Nat.div_le_div_right (by omega)
      omega
    · omega
    · have hub : x ≤ s + 2001 * ((x - s) / 2001) + 2000 := by omega
      exact le_min hub hxe
  · rintro ⟨p, hp, hp1, hp2⟩
    rw [chunkRanges_closedForm s e h] at hp
    obtain ⟨i, _, rfl⟩ := List.mem_map.mp hp
    simp only at hp1 hp2
    have hmin := min_le_right (s + 2001 * i + 2000) e
    omega

/-- Consecutive sub-ranges are adjacent: each starts right after its
predecessor ends. -/
theorem chunkRanges_adjacent (s e : Nat) (h : s ≤ e) :
    ∀ i, i + 1 < (chunkRanges s e).length →
      ((chunkRanges s e).getD (i + 1) (0, 0)).1 =
        ((chunkRanges s e).getD i (0, 0)).2 + 1 := by
  intro i hi
  rw [chunkRanges_closedForm s e h] at hi ⊢
  rw [List.length_map, List.length_range] at hi
  have hget : ∀ j, j < (e - s) / 2001 + 1 →
      ((List.range ((e - s) / 2001 + 1)).map
        (fun i => (s + 2001 * i, min (s + 2001 * i + 2000) e))).getD j (0, 0) =
      (s + 2001 * j, min (s + 2001 * j + 2000) e) := by
    intro j hj
    rw [List.getD_eq_getElem?_getD, List.getElem?_map, List.getElem?_range hj]
    rfl
  rw [hget (i + 1) hi, hget i (by omega)]
  have hle : 2001 * (i + 1) ≤ e - s := by
    have h1 : i + 1 ≤ (e - s) / 2001 := by omega
    calc 2001 * (i + 1) ≤ 2001 * ((e - s) / 2001) := Nat.mul_le_mul_left _ h1
      _ ≤ e - s := by
        rw [Nat.mul_comm]
        exact Nat.div_mul_le_self _ _
  simp only
  have hmin : min (s + 2001 * i + 2000) e = s + 2001 * i + 2000 := by
    refine min_eq_left ?_
    omega
  rw [hmin]
  ring

/-- C1 (amended): for every `eth_getLogs` request whose resolved range
satisfies `from ≤ to ≤ from + max_logs_blocks` — and, as the u64 arithmetic of
the implementation forces, `from + max_logs_blocks < 2 ^ 64` and
`to ≤ 2 ^ 64 - 2` — the bridge issues exactly `ceil((to - from + 1) / 2001)`
upstream `EthGetLogs` sub-queries, over consecutive adjacent closed sub-ranges
(the `i`-th being `[from + 2001 i, min (from + 2001 i + 2000) to]`, hence each
spanning at most 2001 blocks) that together cover exactly `[from, to]`, and
returns the concatenation of the sub-range results in ascending block-range
order. -/
theorem logs_chunking_amended {α : Type} (oracle : Nat → Nat → List α)
    (maxLogs f t : Nat) (h1 : f ≤ t) (h2 : t ≤ f + maxLogs)
    (h3 : f + maxLogs < U64LIMIT) (h4 : t + 2 ≤ U64LIMIT) :
    logsRun oracle maxLogs f t ((t - f) / 2001 + 1) =
      (chunkRanges f t,
        some (.ok (((chunkRanges f t).map (fun p => oracle p.1 p.2)).flatten))) ∧
    (chunkRanges f t).length = ((t - f + 1) + 2000) / 2001 ∧
    chunkRanges f t = (List.range ((t - f) / 2001 + 1)).map
      (fun i => (f + 2001 * i, min (f + 2001 * i + 2000) t)) ∧
    (∀ x, (f ≤ x ∧ x ≤ t) ↔ ∃ p ∈ chunkRanges f t, p.1 ≤ x ∧ x ≤ p.2) ∧
    (∀ i, i + 1 < (chunkRanges f t).length →
      ((chunkRanges f t).getD (i + 1) (0, 0)).1 =
        ((chunkRanges f t).getD i (0, 0)).2 + 1) := by
  have hwrap : wrapAdd64 f maxLogs = f + maxLogs := Nat.mod_eq_of_lt h3
  have hlen : (chunkRanges f t).length ≤ (t - f) / 2001 + 1 := by
    rw [chunkRanges_length f t h1]
    have hsplit : t - f + 1 + 2000 = (t - f) + 2001 := by ring
    rw [hsplit, Nat.add_div_right _ (by norm_num)]
  refine ⟨?_, chunkRanges_length f t h1, chunkRanges_closedForm f t h1,
    fun x => chunkRanges_cover f t x h1, chunkRanges_adjacent f t h1⟩
  unfold logsRun
  rw [if_neg (Nat.not_lt.mpr h1), hwrap, if_neg (Nat.not_lt.mpr h2),
    logsChunksFuel_eq_chunkRanges t h4 _ f hlen]
  rfl

/-- Witness for C1 at `from = 100`, `to = 4200`, `max_logs_blocks = 5000`:
three sub-queries are issued ( `(4200 - 100) / 2001 + 1 = 3` ). -/
theorem logs_chunking_amended_witness :
    (100 : Nat) ≤ 4200 ∧ (4200 : Nat) ≤ 100 + 5000 ∧
    100 + 5000 < U64LIMIT ∧ 4200 + 2 ≤ U64LIMIT ∧
    (logsRun (fun a b => ([a, b] : List Nat)) 5000 100 4200 ((4200 - 100) / 2001 + 1) =
      (chunkRanges 100 4200,
        some (.ok (((chunkRanges 100 4200).map (fun p => [p.1, p.2])).flatten))) ∧
    (chunkRanges 100 4200).length = ((4200 - 100 + 1) + 2000) / 2001 ∧
    chunkRanges 100 4200 = (List.range ((4200 - 100) / 2001 + 1)).map
      (fun i => (100 + 2001 * i, min (100 + 2001 * i + 2000) 4200)) ∧
    (∀ x, (100 ≤ x ∧ x ≤ 4200) ↔ ∃ p ∈ chunkRanges 100 4200, p.1 ≤ x ∧ x ≤ p.2) ∧
    (∀ i, i + 1 < (chunkRanges 100 4200).length →
      ((chunkRanges 100 4200).getD (i + 1) (0, 0)).1 =
        ((chunkRanges 100 4200).getD i (0, 0)).2 + 1)) :=
  ⟨by decide, by decide, by decide, by decide,
   logs_chunking_amended (fun a b => ([a, b] : List Nat)) 5000 100 4200
     (by decide) (by decide) (by decide) (by decide)⟩

/-- C1 counterexample.  For `from = 2^64 - 1000`, `to = 2^64 - 1`,
`max_logs_blocks = 999` the claim's hypothesis `from ≤ to ≤ from +
max_logs_blocks` holds and it predicts exactly `ceil((to - from + 1)/2001) = 1`
sub-query; but after two loop iterations the bridge has already issued two
sub-queries and the loop has not terminated — `saturating_add` pins `starting`
at `2^64 - 1 = to`, so the loop never terminates.  Furthermore, for
`from = 2^64 - 1000`, `to = 2^64 - 2`, `max_logs_blocks = 2^64 - 1` (hypothesis
also satisfied) the u64 guard `starting_block + max_logs_blocks` wraps and the
query is rejected with zero sub-queries instead of one. -/
theorem logs_chunking_counterexample :
    U64LIMIT - 1000 ≤ U64LIMIT - 1 ∧
    U64LIMIT - 1 ≤ (U64LIMIT - 1000) + 999 ∧
    ((U64LIMIT - 1) - (U64LIMIT - 1000) + 1 + 2000) / 2001 = 1 ∧
    (logsRun (fun a b => ([a, b] : List Nat)) 999
      (U64LIMIT - 1000) (U64LIMIT - 1) 2).1.length = 2 ∧
    (logsRun (fun a b => ([a, b] : List Nat)) 999
      (U64LIMIT - 1000) (U64LIMIT - 1) 2).2 = none ∧
    U64LIMIT - 1000 ≤ U64LIMIT - 2 ∧
    U64LIMIT - 2 ≤ (U64LIMIT - 1000) + (U64LIMIT - 1) ∧
    logsRun (fun a b => ([a, b] : List Nat)) (U64LIMIT - 1)
        (U64LIMIT - 1000) (U64LIMIT - 2) 5 =
      ([], some (.error (.invalidBlocksRange (U64LIMIT - 1000) (U64LIMIT - 2)
        (some (U64LIMIT - 1))))) :=
  ⟨by decide, by decide, by decide, rfl, rfl, by decide, by decide, rfl⟩

/-- C2 (amended): with both endpoints resolved to `from` and `to`: if
`to < from` the call fails with `InvalidBlocksRange { starting: from, ending:
to, batch_size: None }` and issues no upstream sub-query; if `from ≤ to` and
`to > from + max_logs_blocks` it fails with `InvalidBlocksRange { .., batch_size:
Some(max_logs_blocks) }` and issues no upstream sub-query; otherwise — with
the bound taken as the guard's u64 wrapping sum `(from + max_logs_blocks) mod
2^64`, which equals `from + max_logs_blocks` whenever that sum is below
`2^64` — it does not fail with `InvalidBlocksRange`. -/
theorem logs_validation_amended {α : Type} (oracle : Nat → Nat → List α)
    (maxLogs f t fuel : Nat) :
    (t < f → logsRun oracle maxLogs f t fuel =
      ([], some (.error (.invalidBlocksRange f t none)))) ∧
    (f ≤ t → f + maxLogs < t → logsRun oracle maxLogs f t fuel =
      ([], some (.error (.invalidBlocksRange f t (some maxLogs))))) ∧
    (f ≤ t → t ≤ wrapAdd64 f maxLogs →
      ∀ a b bs, (logsRun oracle maxLogs f t fuel).2 ≠
        some (.error (.invalidBlocksRange a b bs))) := by
  refine ⟨?_, ?_, ?_⟩
  · intro h
    unfold logsRun
    rw [if_pos h]
  · intro hft h
    have hw : wrapAdd64 f maxLogs < t :=
      Nat.lt_of_le_of_lt (Nat.mod_le (f + maxLogs) U64LIMIT) h
    unfold logsRun
    rw [if_neg (Nat.not_lt.mpr hft), if_pos hw]
  · intro hft hle a b bs
    unfold logsRun
    rw [if_neg (Nat.not_lt.mpr hft), if_neg (Nat.not_lt.mpr hle)]
    cases hb : (logsChunksFuel fuel f t).2
    · simp [hb]
    · simp [hb]

/-- Witness for C2 at the spec's own examples: `from = 10, to = 9` is rejected
with `batch_size: None`; `from = 0, to = 600` with `max_logs_blocks = 500` is
rejected with `batch_size: Some(500)`. -/
theorem logs_validation_amended_witness :
    (9 : Nat) < 10 ∧
    logsRun (fun a b => ([a, b] : List Nat)) 500 10 9 3 =
      ([], some (.error (.invalidBlocksRange 10 9 none))) ∧
    ((0 : Nat) ≤ 600 ∧ (0 : Nat) + 500 < 600) ∧
    logsRun (fun a b => ([a, b] : List Nat)) 500 0 600 3 =
      ([], some (.error (.invalidBlocksRange 0 600 (some 500)))) :=
  ⟨by decide,
   (logs_validation_amended (fun a b => ([a, b] : List Nat)) 500 10 9 3).1 (by decide),
   ⟨by decide, by decide⟩,
   (logs_validation_amended (fun a b => ([a, b] : List Nat)) 500 0 600 3).2.1
     (by decide) (by decide)⟩

/-- C2 counterexample.  At `from = to = 2^64 - 1` with `max_logs_blocks = 500`
the claim's hypothesis of its third clause holds (`from ≤ to ≤ from +
max_logs_blocks`), so the claim says the call does not fail with
`InvalidBlocksRange`; but `starting_block + meta.max_logs_blocks` (main.rs:827)
wraps in u64 to `499 < to` and the bridge fails with
`InvalidBlocksRange { .., batch_size: Some(500) }`. -/
theorem logs_validation_counterexample :
    U64LIMIT - 1 ≤ U64LIMIT - 1 ∧ U64LIMIT - 1 ≤ (U64LIMIT - 1) + 500 ∧
    logsRun (fun a b => ([a, b] : List Nat)) 500 (U64LIMIT - 1) (U64LIMIT - 1) 3 =
      ([], some (.error (.invalidBlocksRange (U64LIMIT - 1) (U64LIMIT - 1)
        (some 500)))) :=
  ⟨le_rfl, by omega, rfl⟩

/-- C8 (amended): the effective `min_gas_price` is the least multiple of one
gwei (`10^9`) greater than or equal to the supplied decimal `--min-gas-price`
value — or, when that flag is absent or unparsable, to the default
`21000 * LAMPORTS_TO_GWEI_PRICE / DEFAULT_TARGET_LAMPORTS_PER_SIGNATURE` — so
the result is a multiple of `10^9` and never smaller than the input price;
provided the effective input is at most `2 ^ 256 - 10^9` (beyond that the U256
rounding addition overflows and the bridge panics). -/
theorem min_gas_price_amended (L D : Nat) (parsed : Option Nat)
    (hD : 0 < D) (hL : 21000 * L < U64LIMIT)
    (hin : parsed.getD (default_min_gas_price L D) + GWEI ≤ U256LIMIT) :
    default_min_gas_price L D = 21000 * L / D ∧
    ∃ r, min_gas_price_or_default L D parsed = some r ∧
      r % GWEI = 0 ∧ parsed.getD (default_min_gas_price L D) ≤ r ∧
      r < parsed.getD (default_min_gas_price L D) + GWEI := by
  have hdef : default_min_gas_price L D = 21000 * L / D := by
    unfold default_min_gas_price
    rw [Nat.mod_eq_of_lt hL]
  refine ⟨hdef, ?_⟩
  have hG1 : 1 ≤ GWEI := by norm_num [GWEI]
  have hlt : parsed.getD (default_min_gas_price L D) + (GWEI - 1) < U256LIMIT :=
    Nat.lt_of_lt_of_le (by omega) hin
  unfold min_gas_price_or_default
  rw [if_neg (Nat.not_le.mpr hlt)]
  refine ⟨_, rfl, ?_⟩
  simp only [GWEI]
  omega

/-- Witness for C8 with the actual constant values
`LAMPORTS_TO_GWEI_PRICE = 10^9`, `DEFAULT_TARGET_LAMPORTS_PER_SIGNATURE =
10^4` and the flag absent. -/
theorem min_gas_price_amended_witness :
    (0 : Nat) < 10000 ∧ 21000 * 1000000000 < U64LIMIT ∧
    Option.getD (none : Option Nat) (default_min_gas_price 1000000000 10000) + GWEI ≤ U256LIMIT ∧
    (default_min_gas_price 1000000000 10000 = 21000 * 1000000000 / 10000 ∧
     ∃ r, min_gas_price_or_default 1000000000 10000 none = some r ∧
       r % GWEI = 0 ∧
       Option.getD (none : Option Nat) (default_min_gas_price 1000000000 10000) ≤ r ∧
       r < Option.getD (none : Option Nat) (default_min_gas_price 1000000000 10000) + GWEI) :=
  ⟨by decide, by decide, by decide,
   min_gas_price_amended 1000000000 10000 none (by decide) (by decide) (by decide)⟩

/-- C8 counterexample.  With the actual constants, a parsable
`--min-gas-price` of `2^256 - 1` makes `gas_price += gwei - 1` (main.rs:1070)
overflow U256, so the bridge panics (`none`) instead of producing the least
gwei multiple greater than or equal to the input as the claim states. -/
theorem min_gas_price_counterexample :
    min_gas_price_or_default 1000000000 10000 (some (U256LIMIT - 1)) = none := rfl
